import Mathlib

/-!
Shallow embedding of the change-tracking core of `custom-models-action`
(`src/model_info.py`), together with the parts of its collaborator modules
(`model_file_path.py`, `schema_validator.py`) that the claims need, modelled
from the specification because their sources are not part of the repository
snapshot.
-/

/-- A canonical absolute filesystem path, represented as its list of
components from the filesystem root. -/
abbrev FsPath := List String

/-- A textual input path as handed to `set_model_paths`: possibly relative,
possibly containing `.` and `..` components. -/
structure RawPath where
  absolute : Bool
  components : List String
deriving DecidableEq

/-- Normalization of a component list: drops `.` components and lets `..`
cancel the preceding component, accumulating the canonical form in `acc`. -/
def normalizeFrom (acc : List String) : List String → List String
  | [] => acc
  | c :: cs =>
    if c = "." then normalizeFrom acc cs
    else if c = ".." then normalizeFrom acc.dropLast cs
    else normalizeFrom (acc ++ [c]) cs

/-- Modelled from the spec: step 1 of the PathClassifier algorithm resolves
the input path to an absolute canonical form. Relative paths are resolved
against the given base directory; `.` and `..` segments are normalized away. -/
def resolvePath (base : FsPath) (p : RawPath) : FsPath :=
  normalizeFrom [] ((if p.absolute then [] else base) ++ p.components)

/-- Modelled from the spec: the two legal classifications of a model file
path relative to the model root and the repository root. -/
inductive RelativeTo
  | under_model_root
  | under_repo_root_outside_model
deriving DecidableEq

/-- Whether canonical path `p` is a descendant of the directory `root`. -/
def isUnder (root p : FsPath) : Bool :=
  decide (p.take root.length = root)

/-- Modelled from the spec: the classified path descriptor produced by the
PathClassifier (`model_file_path.py`, not in the snapshot): a canonical
resolved path, its classification, and its logical in-model placement. -/
structure ModelFilePath where
  resolved : FsPath
  relative_to : RelativeTo
  under_model : FsPath
deriving DecidableEq

/-- The file name of a classified path: the last component of its canonical
resolved path. -/
def ModelFilePath.name (p : ModelFilePath) : String :=
  p.resolved.getLastD ""

/-- Modelled from the spec: the PathClassifier algorithm (`model_file_path.py`,
not in the snapshot). Resolve the input path; if it falls under the model
root classify it there (model-root containment takes priority), else if it
falls under the repository root classify it there, else fail. -/
def ModelFilePath.make (path : RawPath) (model_root repo_root : FsPath) :
    Option ModelFilePath :=
  let r := resolvePath repo_root path
  if isUnder model_root r then
    some ⟨r, RelativeTo.under_model_root, r.drop model_root.length⟩
  else if isUnder repo_root r then
    some ⟨r, RelativeTo.under_repo_root_outside_model, r.drop repo_root.length⟩
  else none

/-- A YAML-like metadata value, as handed over by the schema-validation
collaborator. -/
inductive Value
  | null
  | bool (b : Bool)
  | int (n : Int)
  | str (s : String)
  | map (entries : List (String × Value))

/-- First-match association lookup among the entries of a mapping value. -/
def lookupEntries : List (String × Value) → String → Option Value
  | [], _ => none
  | e :: es, k => if e.1 = k then some e.2 else lookupEntries es k

/-- Lookup of one key in a metadata value; a non-mapping value has no keys. -/
def Value.lookupKey : Value → String → Option Value
  | .map es, k => lookupEntries es k
  | _, _ => none

/-- Whether a mapping value contains the given top-level key (Python `in`). -/
def Value.containsKey (v : Value) (k : String) : Bool :=
  (v.lookupKey k).isSome

/-- Python truthiness of a metadata value. -/
def Value.truthy : Value → Bool
  | .null => false
  | .bool b => b
  | .int n => n != 0
  | .str s => s != ""
  | .map es => !es.isEmpty

/-- Truthiness of an optional value: an absent value is falsy. -/
def optTruthy : Option Value → Bool
  | some v => v.truthy
  | none => false

/-- Modelled from the spec: `ModelSchema.get_value` (`schema_validator.py`,
not in the snapshot) is a read-only nested lookup into a metadata mapping
that returns an absent value whenever any key in the chain is missing. -/
def ModelSchema.get_value (metadata : Value) (key : String)
    (sub_keys : List String) : Option Value :=
  sub_keys.foldl (fun acc k => acc.bind (fun v => v.lookupKey k))
    (metadata.lookupKey key)

/-- Modelled from the spec: schema key name of the version section. -/
def ModelSchema.VERSION_KEY : String := "version"

/-- Modelled from the spec: schema key name of the version memory override. -/
def ModelSchema.MEMORY_KEY : String := "memory"

/-- Modelled from the spec: schema key name of the version replica override. -/
def ModelSchema.REPLICAS_KEY : String := "replicas"

/-- Modelled from the spec: schema key name of the test section. -/
def ModelSchema.TEST_KEY : String := "test"

/-- Modelled from the spec: schema key name of the test skip flag. -/
def ModelSchema.TEST_SKIP_KEY : String := "skip"

/-- Modelled from the spec: schema key name of the settings section. -/
def ModelSchema.SETTINGS_SECTION_KEY : String := "settings"

/-- `ModelInfo.Flags` from `model_info.py`: both flags default to false. -/
structure Flags where
  should_upload_all_files : Bool := false
  should_update_settings : Bool := false
deriving DecidableEq

/-- `ModelInfo.FileChanges` from `model_info.py`: the lists of changed/new
files and deleted file IDs, both empty by default. -/
structure FileChanges where
  changed_or_new_files : List ModelFilePath := []
  deleted_file_ids : List String := []
deriving DecidableEq

/-- `FileChanges.add_changed`: append one model file path to the
changed-or-new list. -/
def FileChanges.add_changed (fc : FileChanges) (model_file_path : ModelFilePath) :
    FileChanges :=
  { fc with changed_or_new_files := fc.changed_or_new_files ++ [model_file_path] }

/-- `FileChanges.extend_deleted`: append all given IDs to the deleted list. -/
def FileChanges.extend_deleted (fc : FileChanges) (deleted_file_id_list : List String) :
    FileChanges :=
  { fc with deleted_file_ids := fc.deleted_file_ids ++ deleted_file_id_list }

/-- `ModelInfo` from `model_info.py`. The Python dict `_model_file_paths` is
embedded as an insertion-ordered association list from resolved path to
classified path descriptor. -/
structure ModelInfo where
  yaml_filepath : FsPath
  model_path : FsPath
  metadata : Value
  model_file_paths : List (FsPath × ModelFilePath) := []
  file_changes : FileChanges := {}
  flags : Flags := {}

/-- Insertion into an insertion-ordered dict: an existing key keeps its
position and gets the new value, a new key is appended at the end
(Python dict assignment semantics). -/
def dictInsert (d : List (FsPath × ModelFilePath)) (k : FsPath) (v : ModelFilePath) :
    List (FsPath × ModelFilePath) :=
  if d.any (fun e => decide (e.1 = k)) then
    d.map (fun e => if e.1 = k then (k, v) else e)
  else d ++ [(k, v)]

/-- First-match lookup in the insertion-ordered dict. -/
def dictLookup : List (FsPath × ModelFilePath) → FsPath → Option ModelFilePath
  | [], _ => none
  | e :: es, k => if e.1 = k then some e.2 else dictLookup es k

/-- Classify every input path in order; any classification failure (a path
outside both roots) aborts the whole call, as the Python exception does. -/
def classifyAll : List RawPath → FsPath → FsPath → Option (List ModelFilePath)
  | [], _, _ => some []
  | p :: ps, model_root, repo_root =>
    match ModelFilePath.make p model_root repo_root,
        classifyAll ps model_root repo_root with
    | some c, some cs => some (c :: cs)
    | _, _ => none

/-- The loop body of `set_model_paths`: starting from an empty dict, insert
each classified path keyed by its resolved path. -/
def buildDict (cs : List ModelFilePath) : List (FsPath × ModelFilePath) :=
  cs.foldl (fun d c => dictInsert d c.resolved c) []

/-- `ModelInfo.set_model_paths`: reset the file dict and rebuild it from the
given paths, keying each classified path by its resolved form. -/
def ModelInfo.set_model_paths (m : ModelInfo) (paths : List RawPath)
    (repo_root_path : FsPath) : Option ModelInfo :=
  (classifyAll paths m.model_path repo_root_path).map
    (fun cs => { m with model_file_paths := buildDict cs })

/-- `ModelInfo.main_program_filepath`: the first tracked descriptor whose
name is `custom.py`, or none. -/
def ModelInfo.main_program_filepath (m : ModelInfo) : Option ModelFilePath :=
  (m.model_file_paths.find? (fun e => decide (e.2.name = "custom.py"))).map
    (fun e => e.2)

/-- `ModelInfo.main_program_exists`. -/
def ModelInfo.main_program_exists (m : ModelInfo) : Bool :=
  m.main_program_filepath.isSome

/-- `ModelInfo.get_value`: nested metadata lookup. -/
def ModelInfo.get_value (m : ModelInfo) (key : String) (sub_keys : List String) :
    Option Value :=
  ModelSchema.get_value m.metadata key sub_keys

/-- `ModelInfo.get_settings_value`: the same lookup scoped under the
settings section key. -/
def ModelInfo.get_settings_value (m : ModelInfo) (key : String)
    (sub_keys : List String) : Option Value :=
  m.get_value ModelSchema.SETTINGS_SECTION_KEY (key :: sub_keys)

/-- `ModelInfo.should_create_new_version` as the code has it: an OR chain
over upload-all, changed/new files, and the two version-scoped overrides.
The deleted-file-IDs list is NOT consulted. -/
def ModelInfo.should_create_new_version (m : ModelInfo) : Bool :=
  m.flags.should_upload_all_files
    || !m.file_changes.changed_or_new_files.isEmpty
    || optTruthy (m.get_value ModelSchema.VERSION_KEY [ModelSchema.MEMORY_KEY])
    || optTruthy (m.get_value ModelSchema.VERSION_KEY [ModelSchema.REPLICAS_KEY])

/-- The spec's `shouldCreateNewVersion`: the same OR chain but with the
fifth trigger, a non-empty deleted-file-IDs list, included. -/
def ModelInfo.should_create_new_version_spec (m : ModelInfo) : Bool :=
  m.flags.should_upload_all_files
    || !m.file_changes.changed_or_new_files.isEmpty
    || !m.file_changes.deleted_file_ids.isEmpty
    || optTruthy (m.get_value ModelSchema.VERSION_KEY [ModelSchema.MEMORY_KEY])
    || optTruthy (m.get_value ModelSchema.VERSION_KEY [ModelSchema.REPLICAS_KEY])

/-- `ModelInfo.is_affected_by_commit`. -/
def ModelInfo.is_affected_by_commit (m : ModelInfo) : Bool :=
  m.should_create_new_version || m.flags.should_update_settings

/-- `ModelInfo.should_run_test`: the test section must be present and its
skip sub-key must not be truthy. -/
def ModelInfo.should_run_test (m : ModelInfo) : Bool :=
  m.metadata.containsKey ModelSchema.TEST_KEY
    && !optTruthy (m.get_value ModelSchema.TEST_KEY [ModelSchema.TEST_SKIP_KEY])

/-- A fresh model record over the given metadata, as `__init__` builds it:
empty file dict, default file changes, default flags. -/
def mkModel (md : Value) : ModelInfo :=
  { yaml_filepath := ["repo", "models", "m1", "model.yaml"]
  , model_path := ["repo", "models", "m1"]
  , metadata := md }

/-- A record whose only non-default field is a non-empty deleted-file-IDs
list. -/
def deletedOnlyModel : ModelInfo :=
  { mkModel (Value.map []) with file_changes := { deleted_file_ids := ["f1"] } }

/-- Claim C1: the claim states that `should_create_new_version` is true
whenever `deleted_file_ids` is the only non-default field, but the code's OR
chain omits the deleted-file-IDs trigger: on a record whose only non-default
field is `deleted_file_ids = ["f1"]` the code yields false while the spec's
five-trigger version yields true. -/
theorem C1_deleted_only_divergence :
    deletedOnlyModel.should_create_new_version = false
      ∧ deletedOnlyModel.should_create_new_version_spec = true := by
  exact ⟨rfl, rfl⟩

/-- Claim C8: `is_affected_by_commit` is true iff `should_create_new_version`
is true or `flags.should_update_settings` is true. -/
theorem C8_is_affected_by_commit_iff (m : ModelInfo) :
    m.is_affected_by_commit = true ↔
      (m.should_create_new_version = true ∨ m.flags.should_update_settings = true) := by
  simp [ModelInfo.is_affected_by_commit]

/-- Claim C9: `add_changed` appends its argument at the end of
`changed_or_new_files` (without deduplication) and leaves `deleted_file_ids`
unchanged; `extend_deleted` appends the given IDs in order and leaves
`changed_or_new_files` unchanged; both operations only ever extend the lists
(the old list is a sublist of the new one), so no element is removed. -/
theorem C9_file_changes_append_only (fc : FileChanges) (d : ModelFilePath)
    (ids : List String) :
    (fc.add_changed d).changed_or_new_files = fc.changed_or_new_files ++ [d]
      ∧ (fc.add_changed d).deleted_file_ids = fc.deleted_file_ids
      ∧ (fc.extend_deleted ids).deleted_file_ids = fc.deleted_file_ids ++ ids
      ∧ (fc.extend_deleted ids).changed_or_new_files = fc.changed_or_new_files
      ∧ List.Sublist fc.changed_or_new_files (fc.add_changed d).changed_or_new_files
      ∧ List.Sublist fc.deleted_file_ids (fc.extend_deleted ids).deleted_file_ids := by
  refine ⟨rfl, rfl, rfl, rfl, ?_, ?_⟩
  · exact List.sublist_append_left _ _
  · exact List.sublist_append_left _ _

/-- Claim C5: `should_run_test` is true iff the metadata contains a test
section whose skip sub-key is not truthy; in particular it is false without
a test key, false for a truthy skip, and true for an empty test section. -/
theorem C5_should_run_test (m : ModelInfo) :
    (m.should_run_test = true ↔
      m.metadata.containsKey ModelSchema.TEST_KEY = true
        ∧ optTruthy (m.get_value ModelSchema.TEST_KEY [ModelSchema.TEST_SKIP_KEY]) = false)
      ∧ (mkModel (Value.map [])).should_run_test = false
      ∧ (mkModel (Value.map [("test", Value.map [("skip", Value.bool true)])])).should_run_test
          = false
      ∧ (mkModel (Value.map [("test", Value.map [])])).should_run_test = true := by
  refine ⟨?_, rfl, rfl, rfl⟩
  simp [ModelInfo.should_run_test, Bool.and_eq_true, Bool.not_eq_true']

/-- Folding the key chain from an already absent value stays absent. -/
theorem foldl_lookup_none (ks : List String) :
    ks.foldl (fun (acc : Option Value) k => acc.bind (fun v => Value.lookupKey v k)) none
      = none := by
  induction ks with
  | nil => rfl
  | cons k ks ih => exact ih

/-- Claim C6: a missing first key makes `get_value` absent for every chain
of sub-keys; once a chain is absent, every extension of the chain is absent
as well (so a miss at any key in the chain yields an absent value, never a
failure); and `get_settings_value` is the same lookup scoped under the
settings section key. -/
theorem C6_lookup_miss_absent (m : ModelInfo) (k : String) (ks ks2 : List String) :
    (m.metadata.lookupKey k = none → m.get_value k ks = none)
      ∧ (m.get_value k ks = none → m.get_value k (ks ++ ks2) = none)
      ∧ m.get_settings_value k ks
          = m.get_value ModelSchema.SETTINGS_SECTION_KEY (k :: ks) := by
  refine ⟨fun h => ?_, fun h => ?_, rfl⟩
  · simp only [ModelInfo.get_value, ModelSchema.get_value, h]
    exact foldl_lookup_none ks
  · simp only [ModelInfo.get_value, ModelSchema.get_value] at h ⊢
    rw [List.foldl_append, h]
    exact foldl_lookup_none ks2

/-- Witness for C6: on a record with empty metadata, looking up an absent
key gives an absent value. -/
theorem C6_lookup_miss_absent_witness :
    (mkModel (Value.map [])).get_value "absent" ["sub"] = none :=
  (C6_lookup_miss_absent (mkModel (Value.map [])) "absent" ["sub"] []).1 rfl

/-- Claim C7: `main_program_exists` is true iff some tracked file's name is
the entry-point filename `custom.py`, hence false for an empty file set;
`main_program_filepath` is none iff no tracked file has that name, and when
a match exists it returns the first matching descriptor in map iteration
order. -/
theorem C7_main_program (m : ModelInfo) :
    (m.main_program_exists = true ↔
      ∃ e ∈ m.model_file_paths, ModelFilePath.name e.2 = "custom.py")
      ∧ (m.model_file_paths = [] → m.main_program_exists = false)
      ∧ (m.main_program_filepath = none ↔
          ∀ e ∈ m.model_file_paths, ModelFilePath.name e.2 ≠ "custom.py")
      ∧ ∀ l1 e l2, m.model_file_paths = l1 ++ e :: l2 →
          (∀ e2 ∈ l1, ModelFilePath.name e2.2 ≠ "custom.py") →
          ModelFilePath.name e.2 = "custom.py" →
          m.main_program_filepath = some e.2 := by
  refine ⟨?_, fun h => ?_, ?_, fun l1 e l2 hsplit hno hyes => ?_⟩
  · simp only [ModelInfo.main_program_exists, ModelInfo.main_program_filepath,
      Option.isSome_map', List.find?_isSome, decide_eq_true_eq]
  · simp only [ModelInfo.main_program_exists, ModelInfo.main_program_filepath, h,
      List.find?_nil, Option.map_none', Option.isSome_none]
  · simp only [ModelInfo.main_program_filepath, Option.map_eq_none',
      List.find?_eq_none, decide_eq_true_eq]
  · have hnone : l1.find? (fun e => decide (ModelFilePath.name e.2 = "custom.py")) = none := by
      rw [List.find?_eq_none]
      intro x hx
      simpa using hno x hx
    simp only [ModelInfo.main_program_filepath, hsplit]
    rw [List.find?_append, hnone, Option.none_or,
      List.find?_cons_of_pos _ (by simpa using hyes)]
    rfl

/-- Witness for C7: a fresh record has an empty file set and no main
program. -/
theorem C7_main_program_witness :
    (mkModel (Value.map [])).main_program_exists = false :=
  (C7_main_program (mkModel (Value.map []))).2.1 rfl

/-- Unpacking a successful `set_model_paths` call: the input paths all
classified, and the record's file dict was replaced by the freshly built
dict while every other field was kept. -/
theorem set_model_paths_eq (m : ModelInfo) (ps : List RawPath) (root : FsPath)
    (m2 : ModelInfo) (h : m.set_model_paths ps root = some m2) :
    ∃ cs, classifyAll ps m.model_path root = some cs
      ∧ m2 = { m with model_file_paths := buildDict cs } := by
  simp only [ModelInfo.set_model_paths, Option.map_eq_some'] at h
  obtain ⟨cs, hcs, hm⟩ := h
  exact ⟨cs, hcs, hm.symm⟩

/-- Claim C2: `set_model_paths` is a full replace: after `set_model_paths P1`
followed by `set_model_paths P2`, the file dict is exactly the one built
from the classification of P2 against the original record's roots, with no
entry carried over from P1. -/
theorem C2_set_model_paths_full_replace (m m1 m2 : ModelInfo)
    (P1 P2 : List RawPath) (root : FsPath)
    (h1 : m.set_model_paths P1 root = some m1)
    (h2 : m1.set_model_paths P2 root = some m2) :
    (classifyAll P2 m.model_path root).map buildDict = some m2.model_file_paths := by
  obtain ⟨cs1, hcs1, hm1⟩ := set_model_paths_eq m P1 root m1 h1
  obtain ⟨cs2, hcs2, hm2⟩ := set_model_paths_eq m1 P2 root m2 h2
  have hpath : m1.model_path = m.model_path := by rw [hm1]
  rw [hpath] at hcs2
  rw [hcs2, Option.map_some', hm2]

/-- The repository root used in the concrete examples. -/
def rootEx : FsPath := ["repo"]

/-- A fresh example record with empty metadata. -/
def mEx : ModelInfo := mkModel (Value.map [])

/-- An absolute path to the model's main program. -/
def p1Ex : RawPath := ⟨true, ["repo", "models", "m1", "custom.py"]⟩

/-- An absolute path to a shared library outside the model root. -/
def p2Ex : RawPath := ⟨true, ["repo", "common", "lib.py"]⟩

/-- The record after classifying both example paths. -/
def m1Ex : ModelInfo := (mEx.set_model_paths [p1Ex, p2Ex] rootEx).getD mEx

/-- The record after subsequently classifying only the first path. -/
def m2Ex : ModelInfo := (m1Ex.set_model_paths [p1Ex] rootEx).getD mEx

/-- Witness for C2: replaying with the strict subset `[p1Ex]` of the
previously set `[p1Ex, p2Ex]` leaves exactly the classification of the
subset. -/
theorem C2_set_model_paths_full_replace_witness :
    (classifyAll [p1Ex] mEx.model_path rootEx).map buildDict
      = some m2Ex.model_file_paths :=
  C2_set_model_paths_full_replace mEx m1Ex m2Ex [p1Ex, p2Ex] [p1Ex] rootEx rfl rfl

/-- Claim C3: calling `set_model_paths` twice with identical non-empty input
yields the same file dict as calling it once. -/
theorem C3_set_model_paths_idempotent (m m1 m2 : ModelInfo) (P : List RawPath)
    (root : FsPath) (hne : P ≠ [])
    (h1 : m.set_model_paths P root = some m1)
    (h2 : m1.set_model_paths P root = some m2) :
    m2.model_file_paths = m1.model_file_paths := by
  obtain ⟨cs1, hcs1, hm1⟩ := set_model_paths_eq m P root m1 h1
  obtain ⟨cs2, hcs2, hm2⟩ := set_model_paths_eq m1 P root m2 h2
  have hpath : m1.model_path = m.model_path := by rw [hm1]
  rw [hpath, hcs1] at hcs2
  injection hcs2 with hcs
  subst hcs
  rw [hm2, hm1]

/-- The record after replaying both example paths on `m1Ex`. -/
def m3Ex : ModelInfo := (m1Ex.set_model_paths [p1Ex, p2Ex] rootEx).getD mEx

/-- Witness for C3 at the concrete example paths. -/
theorem C3_set_model_paths_idempotent_witness :
    m3Ex.model_file_paths = m1Ex.model_file_paths :=
  C3_set_model_paths_idempotent mEx m1Ex m3Ex [p1Ex, p2Ex] rootEx
    (by simp) rfl rfl

/-- The keys of the embedded dict, in iteration order. -/
def keysOf (d : List (FsPath × ModelFilePath)) : List FsPath := d.map Prod.fst

/-- Every entry of `dictInsert d k v` is either the inserted pair or an
entry of `d`. -/
theorem mem_dictInsert (e : FsPath × ModelFilePath) (d : List (FsPath × ModelFilePath))
    (k : FsPath) (v : ModelFilePath) (he : e ∈ dictInsert d k v) :
    e = (k, v) ∨ e ∈ d := by
  unfold dictInsert at he
  by_cases hany : d.any (fun e => decide (e.1 = k)) = true
  · rw [if_pos hany] at he
    obtain ⟨e2, he2, hfe⟩ := List.mem_map.mp he
    by_cases h1 : e2.1 = k
    · left
      rw [← hfe, if_pos h1]
    · right
      rw [← hfe, if_neg h1]
      exact he2
  · rw [if_neg hany] at he
    rcases List.mem_append.mp he with h | h
    · right; exact h
    · left; simpa using h

/-- Replacing the value at key `k` does not change the key list. -/
theorem keysOf_map_replace (d : List (FsPath × ModelFilePath)) (k : FsPath)
    (v : ModelFilePath) :
    keysOf (d.map (fun e => if e.1 = k then (k, v) else e)) = keysOf d := by
  induction d with
  | nil => rfl
  | cons e es ih =>
    have hfst : (if e.1 = k then (k, v) else e).1 = e.1 := by
      by_cases h1 : e.1 = k
      · rw [if_pos h1]
        exact h1.symm
      · rw [if_neg h1]
    simp only [keysOf, List.map_cons] at ih ⊢
    rw [hfst, ih]

/-- `dictInsert` preserves distinctness of the keys. -/
theorem keysOf_dictInsert_nodup (d : List (FsPath × ModelFilePath)) (k : FsPath)
    (v : ModelFilePath) (h : (keysOf d).Nodup) :
    (keysOf (dictInsert d k v)).Nodup := by
  unfold dictInsert
  by_cases hany : d.any (fun e => decide (e.1 = k)) = true
  · rw [if_pos hany, keysOf_map_replace]
    exact h
  · rw [if_neg hany]
    have hk : k ∉ keysOf d := by
      intro hmem
      obtain ⟨e, he, hek⟩ := List.mem_map.mp hmem
      apply hany
      exact List.any_eq_true.mpr ⟨e, he, by simp [hek]⟩
    have : keysOf (d ++ [(k, v)]) = keysOf d ++ [k] := by
      unfold keysOf
      rw [List.map_append]
      rfl
    rw [this]
    exact List.Nodup.append h (List.nodup_singleton k) (List.disjoint_singleton.2 hk)

/-- Folding `dictInsert` over classified paths keeps the invariant that
every entry is keyed by its descriptor's resolved path. -/
theorem buildDict_key_eq_resolved_aux (cs : List ModelFilePath) :
    ∀ d, (∀ e ∈ d, e.1 = e.2.resolved) →
      ∀ e ∈ cs.foldl (fun d c => dictInsert d c.resolved c) d,
        e.1 = e.2.resolved := by
  induction cs with
  | nil => intro d hd e he; exact hd e he
  | cons c cs ih =>
    intro d hd e he
    refine ih (dictInsert d c.resolved c) ?_ e he
    intro e2 he2
    rcases mem_dictInsert e2 d c.resolved c he2 with h | h
    · rw [h]
    · exact hd e2 h

/-- Folding `dictInsert` over classified paths keeps the keys distinct. -/
theorem buildDict_keys_nodup_aux (cs : List ModelFilePath) :
    ∀ d, (keysOf d).Nodup →
      (keysOf (cs.foldl (fun d c => dictInsert d c.resolved c) d)).Nodup := by
  induction cs with
  | nil => intro d hd; exact hd
  | cons c cs ih =>
    intro d hd
    exact ih _ (keysOf_dictInsert_nodup d c.resolved c hd)

/-- Claim C4: after any successful `set_model_paths`, the file dict's keys
are distinct and each key is the canonical resolved path of its descriptor,
so two textually different input paths that resolve to the same file yield
one key, not two. -/
theorem C4_keys_canonical (m m2 : ModelInfo) (P : List RawPath) (root : FsPath)
    (h : m.set_model_paths P root = some m2) :
    (m2.model_file_paths.map Prod.fst).Nodup
      ∧ ∀ e ∈ m2.model_file_paths, e.1 = e.2.resolved := by
  obtain ⟨cs, hcs, hm⟩ := set_model_paths_eq m P root m2 h
  subst hm
  constructor
  · exact buildDict_keys_nodup_aux cs [] List.nodup_nil
  · exact buildDict_key_eq_resolved_aux cs [] (by intro e he; cases he)

/-- A relative textual form of `p1Ex`, resolving to the same file. -/
def pRelEx : RawPath := ⟨false, [".", "models", "m1", "custom.py"]⟩

/-- The record after classifying the same file under two textual forms. -/
def mDupEx : ModelInfo := (mEx.set_model_paths [p1Ex, pRelEx] rootEx).getD mEx

/-- Witness for C4: both textual forms of the same file collapse into a
single canonical key. -/
theorem C4_keys_canonical_witness :
    ((mDupEx.model_file_paths.map Prod.fst).Nodup
        ∧ ∀ e ∈ mDupEx.model_file_paths, e.1 = e.2.resolved)
      ∧ mDupEx.model_file_paths.length = 1 := by
  refine ⟨C4_keys_canonical mEx mDupEx [p1Ex, pRelEx] rootEx rfl, rfl⟩

/-- The classification of the last element of `cs` whose resolved path is
`k` (later elements take precedence). -/
def lastMatch : List ModelFilePath → FsPath → Option ModelFilePath
  | [], _ => none
  | c :: cs, k =>
    match lastMatch cs k with
    | some c2 => some c2
    | none => if c.resolved = k then some c else none

/-- `lastMatch` is the last element of the sublist of matches. -/
theorem lastMatch_eq_getLast_filter (cs : List ModelFilePath) (k : FsPath) :
    lastMatch cs k = (cs.filter (fun c => decide (c.resolved = k))).getLast? := by
  induction cs with
  | nil => rfl
  | cons c cs ih =>
    simp only [lastMatch, List.filter_cons]
    by_cases hc : c.resolved = k
    · rw [if_pos hc,
        if_pos (show decide (c.resolved = k) = true from decide_eq_true hc), ih]
      cases hl : (cs.filter (fun c => decide (c.resolved = k))) with
      | nil => rfl
      | cons x xs =>
        rw [List.getLast?_cons_cons]
        cases hg : (x :: xs).getLast? with
        | none => simp at hg
        | some y => rfl
    · rw [if_neg hc,
        if_neg (show ¬(decide (c.resolved = k) = true) from by simpa using hc), ih]
      cases hg : (cs.filter (fun c => decide (c.resolved = k))).getLast? with
      | none => rfl
      | some y => rfl

/-- Lookup after a value replacement at a different key is unchanged. -/
theorem dictLookup_map_ne (d : List (FsPath × ModelFilePath)) (kc : FsPath)
    (v : ModelFilePath) (k : FsPath) (hk : k ≠ kc) :
    dictLookup (d.map (fun e => if e.1 = kc then (kc, v) else e)) k
      = dictLookup d k := by
  induction d with
  | nil => rfl
  | cons e es ih =>
    simp only [List.map_cons, dictLookup]
    by_cases h1 : e.1 = kc
    · rw [if_pos h1, if_neg (show ¬((kc, v).1 = k) from fun hc => hk (Eq.symm hc)),
        if_neg (show ¬(e.1 = k) from fun hc => hk (h1 ▸ Eq.symm hc))]
      exact ih
    · rw [if_neg h1]
      by_cases h2 : e.1 = k
      · rw [if_pos h2, if_pos h2]
      · rw [if_neg h2, if_neg h2]
        exact ih

/-- Lookup at the replaced key finds the new value whenever the key was
present. -/
theorem dictLookup_map_self (d : List (FsPath × ModelFilePath)) (kc : FsPath)
    (v : ModelFilePath) (hany : d.any (fun e => decide (e.1 = kc)) = true) :
    dictLookup (d.map (fun e => if e.1 = kc then (kc, v) else e)) kc = some v := by
  induction d with
  | nil => simp at hany
  | cons e es ih =>
    simp only [List.map_cons, dictLookup]
    by_cases h1 : e.1 = kc
    · rw [if_pos h1, if_pos (show (kc, v).1 = kc from rfl)]
    · rw [if_neg h1, if_neg h1]
      simp only [List.any_cons, Bool.or_eq_true, decide_eq_true_eq] at hany
      rcases hany with h | h
      · exact absurd h h1
      · exact ih h

/-- An absent key looks up to nothing. -/
theorem dictLookup_eq_none_of_not_any (d : List (FsPath × ModelFilePath))
    (kc : FsPath) (hany : d.any (fun e => decide (e.1 = kc)) = false) :
    dictLookup d kc = none := by
  induction d with
  | nil => rfl
  | cons e es ih =>
    simp only [List.any_cons, Bool.or_eq_false_iff] at hany
    obtain ⟨h1, h2⟩ := hany
    simp only [dictLookup, if_neg (of_decide_eq_false h1)]
    exact ih h2

/-- Lookup distributes over append, preferring the left dict. -/
theorem dictLookup_append (d d2 : List (FsPath × ModelFilePath)) (k : FsPath) :
    dictLookup (d ++ d2) k
      = match dictLookup d k with
        | some v => some v
        | none => dictLookup d2 k := by
  induction d with
  | nil => rfl
  | cons e es ih =>
    by_cases h1 : e.1 = k
    · simp only [List.cons_append, dictLookup, if_pos h1]
    · simp only [List.cons_append, dictLookup, if_neg h1]
      exact ih

/-- The characteristic equation of `dictInsert` under `dictLookup`. -/
theorem dictLookup_dictInsert (d : List (FsPath × ModelFilePath)) (kc : FsPath)
    (v : ModelFilePath) (k : FsPath) :
    dictLookup (dictInsert d kc v) k
      = if k = kc then some v else dictLookup d k := by
  unfold dictInsert
  by_cases hany : d.any (fun e => decide (e.1 = kc)) = true
  · rw [if_pos hany]
    by_cases hk : k = kc
    · rw [if_pos hk, hk, dictLookup_map_self d kc v hany]
    · rw [if_neg hk, dictLookup_map_ne d kc v k hk]
  · rw [if_neg hany, dictLookup_append]
    by_cases hk : k = kc
    · rw [if_pos hk]
      subst hk
      rw [dictLookup_eq_none_of_not_any d k (Bool.eq_false_iff.mpr hany)]
      simp [dictLookup]
    · rw [if_neg hk]
      cases hd : dictLookup d k with
      | some w => rfl
      | none =>
        show dictLookup [(kc, v)] k = none
        simp only [dictLookup, if_neg (show ¬((kc, v).1 = k) from fun hc => hk (Eq.symm hc))]

/-- Folding `dictInsert` over classified paths: a key looks up to the last
matching classification, falling back to the initial dict. -/
theorem dictLookup_foldl_dictInsert (cs : List ModelFilePath) (k : FsPath) :
    ∀ d, dictLookup (cs.foldl (fun d c => dictInsert d c.resolved c) d) k
      = match lastMatch cs k with
        | some c => some c
        | none => dictLookup d k := by
  induction cs with
  | nil => intro d; rfl
  | cons c cs ih =>
    intro d
    rw [List.foldl_cons, ih (dictInsert d c.resolved c), dictLookup_dictInsert]
    simp only [lastMatch]
    cases lastMatch cs k with
    | some c2 => rfl
    | none =>
      by_cases hk : k = c.resolved
      · rw [if_pos hk, if_pos (Eq.symm hk)]
      · rw [if_neg hk, if_neg (fun hc => hk (Eq.symm hc))]

/-- Claim C10: a successful `set_model_paths` leaves `file_changes`, `flags`
and `metadata` unchanged, and in the rebuilt dict every key looks up to the
classification of the LAST input path resolving to it (later entries
overwrite earlier ones). -/
theorem C10_last_wins_and_frame (m m2 : ModelInfo) (P : List RawPath)
    (root : FsPath) (cs : List ModelFilePath)
    (h : m.set_model_paths P root = some m2)
    (hcs : classifyAll P m.model_path root = some cs) :
    m2.file_changes = m.file_changes
      ∧ m2.flags = m.flags
      ∧ m2.metadata = m.metadata
      ∧ ∀ k, dictLookup m2.model_file_paths k
          = (cs.filter (fun c => decide (c.resolved = k))).getLast? := by
  obtain ⟨cs2, hcs2, hm⟩ := set_model_paths_eq m P root m2 h
  rw [hcs] at hcs2
  injection hcs2 with hcs3
  subst hcs3
  subst hm
  refine ⟨rfl, rfl, rfl, fun k => ?_⟩
  rw [← lastMatch_eq_getLast_filter]
  have := dictLookup_foldl_dictInsert cs k []
  rw [show ({ m with model_file_paths := buildDict cs } : ModelInfo).model_file_paths
      = buildDict cs from rfl, buildDict, this]
  cases lastMatch cs k with
  | some c => rfl
  | none => rfl

/-- Two textual forms of the main program plus a distinct second file, for
the C10 witness. -/
def dupPathsEx : List RawPath := [p1Ex, p2Ex, pRelEx]

/-- The classifications of `dupPathsEx`. -/
def dupCsEx : List ModelFilePath :=
  (classifyAll dupPathsEx mEx.model_path rootEx).getD []

/-- The record after classifying `dupPathsEx`. -/
def mDup2Ex : ModelInfo := (mEx.set_model_paths dupPathsEx rootEx).getD mEx

/-- Witness for C10 at concrete inputs where the first and third paths
resolve to the same canonical file. -/
theorem C10_last_wins_and_frame_witness :
    mDup2Ex.file_changes = mEx.file_changes
      ∧ mDup2Ex.flags = mEx.flags
      ∧ mDup2Ex.metadata = mEx.metadata
      ∧ ∀ k, dictLookup mDup2Ex.model_file_paths k
          = (dupCsEx.filter (fun c => decide (c.resolved = k))).getLast? :=
  C10_last_wins_and_frame mEx mDup2Ex dupPathsEx rootEx dupCsEx rfl rfl
